import Mathlib

/-!
# Verification of the charges-conformity core (Swallowedin/charges2)

Shallow embedding of the repository's conformity-analysis and table-extraction
code, used to settle the frozen claims about its specification.

Conventions of the embedding:
* Python strings are modelled as `Str := List Char`; the regex character
  classes `\w` / `\s` of `re` are modelled over their ASCII range
  (`isWordChar` / `isSpaceChar`), which covers every input the claims use.
* Python floats are modelled as exact rationals `ℚ`; `round` is modelled by
  `pyRound` (round-half-to-even, as Python's built-in `round`).
* Python exceptions are modelled with `Except PyErr`; an uncaught `TypeError`,
  `ZeroDivisionError` or `ValueError` in the source becomes an `Except.error`.
* The source is embedded as written, defects included: a function whose `try`
  block builds a result but never returns it is modelled as returning `none`,
  a prompt f-string that raises while formatting is modelled as that error,
  and code lying beyond such a raise (or beyond a syntax error) is treated as
  unreachable rather than silently repaired.
-/

/-- A Python string, modelled as its list of characters. -/
abbrev Str := List Char

/-- Runtime errors that the embedded code can raise. -/
inductive PyErr where
  | typeError
  | zeroDivisionError
  | valueError
  deriving DecidableEq, Repr

/-- The ASCII range of Python's regex class `\w` (letter, digit or underscore). -/
def isWordChar (c : Char) : Bool :=
  (65 ≤ c.toNat && c.toNat ≤ 90) || (97 ≤ c.toNat && c.toNat ≤ 122) ||
    (48 ≤ c.toNat && c.toNat ≤ 57) || c.toNat == 95

/-- The ASCII range of Python's regex class `\s` (space, tab, LF, VT, FF, CR). -/
def isSpaceChar (c : Char) : Bool :=
  c.toNat == 32 || c.toNat == 9 || c.toNat == 10 ||
    c.toNat == 13 || c.toNat == 11 || c.toNat == 12

/-- ASCII lower-casing of one character, as `str.lower()` acts on ASCII. -/
def lowerChar (c : Char) : Char :=
  if 65 ≤ c.toNat ∧ c.toNat ≤ 90 then Char.ofNat (c.toNat + 32) else c

/-- `name.lower()`. -/
def lowerStr (s : Str) : Str := s.map lowerChar

/-- `re.sub(r'[^\w\s]', ' ', name)`: every character that is neither a word
character nor whitespace is replaced by a space. -/
def depunct (s : Str) : Str :=
  s.map (fun c => if isWordChar c || isSpaceChar c then c else ' ')

/-- The scanning loop of `re.sub(r'\s+', ' ', name)`: `inSpace` records whether
the previous character was whitespace (i.e. the current whitespace run has
already emitted its single replacement space). -/
def collapseAux : Bool → Str → Str
  | _, [] => []
  | inSpace, c :: cs =>
    if isSpaceChar c then
      if inSpace then collapseAux true cs else ' ' :: collapseAux true cs
    else c :: collapseAux false cs

/-- `re.sub(r'\s+', ' ', name)`: each maximal whitespace run becomes one space. -/
def collapseWS (s : Str) : Str := collapseAux false s

/-- Trailing-whitespace removal (the right half of `str.strip()`). -/
def dropTrailingWS (s : Str) : Str :=
  (s.reverse.dropWhile isSpaceChar).reverse

/-- `name.strip()`. -/
def stripStr (s : Str) : Str :=
  dropTrailingWS (s.dropWhile isSpaceChar)

/-- The first character, if any, is not whitespace. Used in proofs about
`stripStr` and `collapseWS`. (Stated via `head?` so that unification never
evaluates the string.) -/
def headNotSpace (s : Str) : Prop :=
  ∀ c, s.head? = some c → isSpaceChar c = false

/-- Does the next piece of input stand at a `\b` boundary on its right, i.e.
is the remaining input empty or starting with a non-word character? -/
def boundaryAfter (rest : Str) : Bool :=
  match rest with
  | [] => true
  | d :: _ => !isWordChar d

/-- The scanning loop of `re.sub(r'\b' + w + r'\b', '', s)` for a whole-word
pattern `w` made of word characters. `prevW` records whether the character
just before the current position (in the original string) is a word
character, which is what `\b` tests; `skip` counts characters of a match
still to be consumed without being emitted. Matches are non-overlapping and
found left to right, exactly as `re.sub` replaces them. -/
def rmAux (w : Str) : Nat → Bool → Str → Str
  | _, _, [] => []
  | Nat.succ k, _, _ :: cs => rmAux w k (isWordChar (w.getLastD ' ')) cs
  | 0, prevW, c :: cs =>
    if w ≠ [] ∧ prevW = false ∧ (c :: cs).take w.length = w ∧
        boundaryAfter ((c :: cs).drop w.length) then
      rmAux w (w.length - 1) (isWordChar (w.getLastD ' ')) cs
    else
      c :: rmAux w 0 (isWordChar c) cs

/-- `re.sub(r'\b' + word + r'\b', '', name)` for one stop word. -/
def removeStop (s w : Str) : Str := rmAux w 0 false s

/-- The stop-word list of `standardize_charge_names`. -/
def stopWords : List Str :=
  ["de", "du", "la", "le", "les", "des", "un", "une", "et", "ou", "a", "au",
    "aux"].map String.data

/-- The stop-word removal loop of `standardize_charge_names`. -/
def removeStops (s : Str) : Str := stopWords.foldl removeStop s

/-- The name-normalization pipeline of `standardize_charge_names`
(conformity_analyzer.py lines 35–50): lowercase, replace `[^\w\s]` by a
space, collapse whitespace runs, remove whole-word stop words, strip. -/
def standardizeName (name : Str) : Str :=
  stripStr (removeStops (collapseWS (depunct (lowerStr name))))

example : standardizeName "Nettoyage  des   locaux!".data = "nettoyage  locaux".data := by decide
example : standardizeName "NETTOYAGE".data = "nettoyage".data := by decide
example : standardizeName "nettoyage de vitres".data = "nettoyage  vitres".data := by decide

/-- Python's built-in `round` on an exactly represented value:
round-half-to-even. -/
def pyRound (q : ℚ) : ℤ :=
  let f := q.floor
  let r := q - (f : ℚ)
  if r < (1 : ℚ)/2 then f
  else if (1 : ℚ)/2 < r then f + 1
  else if f % 2 = 0 then f else f + 1

/-- A charge dict as the analyzer receives it: optional `poste`, `categorie`
and `montant` keys (absence of a key = `none`). -/
structure RawCharge where
  poste : Option Str
  categorie : Option Str
  montant : Option ℚ
  deriving DecidableEq, Repr

/-- A charge after `standardize_charge_names` added its `standardized_name`. -/
structure StdCharge where
  base : RawCharge
  standardized_name : Str
  deriving DecidableEq, Repr

/-- Name selection of `standardize_charge_names`: `poste` if present, else
`categorie`, else the empty string. -/
def chargeName (c : RawCharge) : Str :=
  match c.poste with
  | some n => n
  | none =>
    match c.categorie with
    | some n => n
    | none => []

/-- `standardize_charge_names` (conformity_analyzer.py lines 11–56). -/
def standardize_charge_names (cs : List RawCharge) : List StdCharge :=
  cs.map fun c => ⟨c, standardizeName (chargeName c)⟩

/-- Python's `a in b` on strings: `a` occurs contiguously in `b`. -/
def substrB : Str → Str → Bool
  | a, [] => a.isEmpty
  | a, b@(_ :: bs) => b.take a.length == a || substrB a bs

/-- Helper of `splitWS`: accumulates the current (reversed) token. -/
def splitWSAux : Str → Str → List Str
  | [], acc => if acc.isEmpty then [] else [acc.reverse]
  | c :: cs, acc =>
    if isSpaceChar c then
      if acc.isEmpty then splitWSAux cs [] else acc.reverse :: splitWSAux cs []
    else splitWSAux cs (c :: acc)

/-- Python's `str.split()`: whitespace-separated tokens, empties dropped. -/
def splitWS (s : Str) : List Str := splitWSAux s []

/-- One entry of a matching-candidates list: `{"refacturable": ..., "similarity": ...}`. -/
structure MatchCand where
  refacturable : StdCharge
  similarity : ℚ
  deriving DecidableEq, Repr

/-- The similarity score of `find_similar_charges` for one (charged,
refacturable) pair of standardized names. Tier 2 (substring containment in
either direction) evaluates
`max(len(s) for s in [charged_name.split(), refac_name.split()] if s in charged_name and s in refac_name)`,
whose filter asks whether a *list* of tokens occurs in a *string*: Python
raises `TypeError` before any comparison succeeds, so the tier is modelled
as raising unconditionally. -/
def similarityOf (cn rn : Str) : Except PyErr ℚ :=
  if cn = rn then .ok 1
  else if substrB cn rn || substrB rn cn then .error .typeError
  else
    let cw := (splitWS cn).dedup
    let rcw := (splitWS rn).dedup
    let common := cw.filter fun t => rcw.contains t
    if common.isEmpty then .ok 0
    else .ok ((common.length : ℚ) / ((max cw.length rcw.length : ℕ) : ℚ))

/-- The inner loop of `find_similar_charges`: candidates above the 0.3
threshold, in refacturable order. -/
def candidatesFor (cn : Str) : List StdCharge → Except PyErr (List MatchCand)
  | [] => .ok []
  | r :: rs =>
    match similarityOf cn r.standardized_name with
    | .error e => .error e
    | .ok s =>
      match candidatesFor cn rs with
      | .error e => .error e
      | .ok rest => .ok (if s > (0.3 : ℚ) then ⟨r, s⟩ :: rest else rest)

/-- `matches[charged_name].sort(key=lambda x: x["similarity"], reverse=True)`:
stable sort by descending similarity. -/
def sortCands (l : List MatchCand) : List MatchCand :=
  l.insertionSort fun x y => y.similarity ≤ x.similarity

/-- Insertion-ordered dict update `d[k] = v`. -/
def dictSet {α : Type} : List (Str × α) → Str → α → List (Str × α)
  | [], k, v => [(k, v)]
  | (k', v') :: rest, k, v =>
    if k' = k then (k, v) :: rest else (k', v') :: dictSet rest k v

/-- `d.get(k, dflt)`. -/
def dictGetD {α : Type} : List (Str × α) → Str → α → α
  | [], _, d => d
  | (k', v') :: rest, k, d => if k' = k then v' else dictGetD rest k d

/-- Outer loop of `find_similar_charges` over the standardized charged list. -/
def findSimilarAux (stdR : List StdCharge) :
    List StdCharge → List (Str × List MatchCand) →
    Except PyErr (List (Str × List MatchCand))
  | [], acc => .ok acc
  | ch :: rest, acc =>
    match candidatesFor ch.standardized_name stdR with
    | .error e => .error e
    | .ok cands =>
      findSimilarAux stdR rest (dictSet acc ch.standardized_name (sortCands cands))

/-- `find_similar_charges` (conformity_analyzer.py lines 58–115): the dict
from standardized charged name to its ranked candidate list, or the first
uncaught error. -/
def find_similar_charges (refacturable charged : List RawCharge) :
    Except PyErr (List (Str × List MatchCand)) :=
  findSimilarAux (standardize_charge_names refacturable)
    (standardize_charge_names charged) []

/-- The per-charge verdict produced by `evaluate_charge_conformity`. -/
structure Verdict where
  conformite : Str
  justification : Str
  contestable : Bool
  raison_contestation : Str
  deriving DecidableEq, Repr

/-- `evaluate_charge_conformity` (conformity_analyzer.py lines 117–162). -/
def evaluate_charge_conformity (matching : List MatchCand) : Verdict :=
  match matching with
  | [] =>
    ⟨"non conforme".data,
      "Aucune charge correspondante trouvée dans le bail".data, true,
      "Charge non prévue explicitement dans le bail".data⟩
  | best :: _ =>
    let cat := best.refacturable.base.categorie.getD []
    if best.similarity > (0.8 : ℚ) then
      ⟨"conforme".data,
        "Correspondance directe avec la charge refacturable \x27".data ++ cat ++
          "\x27".data, false, "".data⟩
    else if best.similarity > (0.5 : ℚ) then
      ⟨"à vérifier".data,
        "Correspondance partielle avec la charge refacturable \x27".data ++ cat ++
          "\x27".data, false,
        "Vérifier si la charge entre bien dans cette catégorie".data⟩
    else
      ⟨"à vérifier".data,
        "Correspondance faible avec la charge refacturable \x27".data ++ cat ++
          "\x27".data, true,
        "Correspondance insuffisante avec les charges prévues dans le bail".data⟩

/-- One entry of `charges_analysees` in `analyse_charges_conformity_local`. -/
structure ChargeAnalysee where
  poste : Str
  montant : ℚ
  pourcentage : ℚ
  conformite : Str
  justification : Str
  contestable : Bool
  raison_contestation : Str
  deriving DecidableEq, Repr

/-- The `analyse_globale` sub-dict of the result. -/
structure AnalyseGlobale where
  taux_conformite : ℤ
  conformite_detail : Str
  deriving DecidableEq, Repr

/-- The result structure of `analyse_charges_conformity_local`. -/
structure AnalysisResult where
  charges_refacturables : List RawCharge
  charges_facturees : List ChargeAnalysee
  montant_total : ℚ
  analyse_globale : AnalyseGlobale
  recommandations : List Str
  deriving DecidableEq, Repr

/-- `sum(charge.get("montant", 0) for charge in charged_amounts)`. -/
def totalOf (charged : List RawCharge) : ℚ :=
  (charged.map fun c => c.montant.getD 0).sum

/-- One iteration of the per-charge loop of `analyse_charges_conformity_local`
(lines 186–210). -/
def analyseeOf (charge_matches : List (Str × List MatchCand)) (total : ℚ)
    (ch : RawCharge) : ChargeAnalysee :=
  let stdName := standardizeName (chargeName ch)
  let ms := dictGetD charge_matches stdName []
  let ev := evaluate_charge_conformity ms
  let m := ch.montant.getD 0
  ⟨ch.poste.getD [], m, if total > 0 then m / total * 100 else 0,
    ev.conformite, ev.justification, ev.contestable, ev.raison_contestation⟩

/-- Rendering of a number interpolated into a recommendation or detail string.
The digit formatting of the source's `:.2f` / `:.1f` f-strings is abstracted
as exact rational text; no claim inspects these substrings. -/
def fmtQ (q : ℚ) : Str := (toString q).data

/-- Rendering of an interpolated integer count. -/
def fmtN (n : ℕ) : Str := (toString n).data

/-- The first recommendation text of lines 224–227 (built after its
interpolated division succeeded). -/
def recContestText (n : ℕ) (mc pct : ℚ) : Str :=
  "Vérifier ou contester les ".data ++ fmtN n ++
    " charges potentiellement non conformes, représentant ".data ++ fmtQ mc ++
    "€ (".data ++ fmtQ pct ++ "% du total).".data

/-- The per-important-charge recommendation of lines 230–234. -/
def recImportantText (c : ChargeAnalysee) : Str :=
  "Examiner spécifiquement la charge \x27".data ++ c.poste ++ "\x27 (".data ++
    fmtQ c.montant ++ "€) : ".data ++ c.raison_contestation

/-- The low-global-rate recommendation of lines 237–241. -/
def recGeneralText : Str :=
  ("Demander au bailleur une justification détaillée de la répartition des charges, car le taux de conformité global est inférieur à 70%.").data

/-- The recommendation generation of lines 218–241. The f-string of the first
recommendation divides `montant_contestable` by `montant_total`: when the
total is zero and a contestable charge exists, Python raises
`ZeroDivisionError` there. -/
def recsOf (analysees : List ChargeAnalysee) (total taux : ℚ) :
    Except PyErr (List Str) :=
  let contestables := analysees.filter fun c => c.contestable
  let step1 : Except PyErr (List Str) :=
    if contestables.isEmpty then .ok []
    else if total = 0 then .error .zeroDivisionError
    else
      let mc := (contestables.map fun c => c.montant).sum
      .ok (recContestText contestables.length mc (mc / total * 100) ::
        (contestables.filter fun c => c.pourcentage > 5).map recImportantText)
  match step1 with
  | .error e => .error e
  | .ok recs1 => .ok (recs1 ++ if taux < 70 then [recGeneralText] else [])

/-- The `conformite_detail` f-string of lines 250–255. -/
def detailText (total conforme taux : ℚ) (contestables : List ChargeAnalysee) : Str :=
  "Sur un total de ".data ++ fmtQ total ++ "€ de charges facturées, ".data ++
    fmtQ conforme ++ "€ (".data ++ (toString (pyRound taux)).data ++
    "%) sont clairement conformes au bail. ".data ++ fmtN contestables.length ++
    " charges représentant ".data ++
    fmtQ ((contestables.map fun c => c.montant).sum) ++
    "€ sont potentiellement contestables.".data

/-- The value the `try` block of `analyse_charges_conformity_local` binds to
its local variable `resultat` (lines 176–258), or the first uncaught error
of the block. The block contains no `return resultat`, so this value is
only ever a local: the function never returns it (see
`analyse_charges_conformity_local`). -/
def analyseBody (refacturable charged : List RawCharge) :
    Except PyErr AnalysisResult :=
  match find_similar_charges refacturable charged with
  | .error e => .error e
  | .ok charge_matches =>
    let total := totalOf charged
    let analysees := charged.map (analyseeOf charge_matches total)
    let conformes := analysees.filter fun c => c.conformite == "conforme".data
    let montant_conforme := (conformes.map fun c => c.montant).sum
    let taux : ℚ := if total > 0 then montant_conforme / total * 100 else 0
    let contestables := analysees.filter fun c => c.contestable
    match recsOf analysees total taux with
    | .error e => .error e
    | .ok recs =>
      .ok ⟨refacturable, analysees, total,
        ⟨pyRound taux, detailText total montant_conforme taux contestables⟩, recs⟩

/-- The dict literal built by the first exception handler at lines 260–274.
Its return statement ends in a stray token — `return {...}at` — which is a
Python syntax error, so the handler can never actually return this value;
the whole module fails to compile at that line. The structure is kept here
only as the handler's evident intended value; no theorem treats it as
anything the program produces. -/
def fallbackAnalysis : AnalysisResult :=
  ⟨[], [], 0,
    ⟨0, "L\x27analyse a échoué suite à une erreur technique. Veuillez réessayer.".data⟩,
    ["Réessayer l\x27analyse avec des documents au format texte.".data,
      "S\x27assurer que les documents sont lisibles et contiennent les informations nécessaires.".data]⟩

/-- The return behaviour of `analyse_charges_conformity_local`
(conformity_analyzer.py lines 164–278) as written. The `try` block builds
`resultat` (modelled by `analyseBody`) but contains no `return resultat`,
so completing the block falls off the end of the function: the success path
yields Python's implicit `None`. On the error path the first handler is
reached, but its return statement (line 274) reads `return {...}at` — a
syntax error that in fact prevents the module from loading at all — so
that path cannot produce a value either (the dict it builds is
`fallbackAnalysis`, never returned). No execution path returns an
analysis: both branches are `none`. -/
def analyse_charges_conformity_local (refacturable charged : List RawCharge) :
    Option AnalysisResult :=
  match analyseBody refacturable charged with
  | .ok _ => none
  | .error _ => none

deriving instance DecidableEq for Except

/-- ASCII digit, the regex class `\d`. -/
def isDigitChar (c : Char) : Bool := 48 ≤ c.toNat && c.toNat ≤ 57

/-- A raw table row as `ocr_table_by_grid` produces it: an insertion-ordered
dict from column key to cell text. -/
abbrev Row := List (Str × Str)

/-- Ordered dict lookup `row[k]` / `k in row`. -/
def lookupRow : Row → Str → Option Str
  | [], _ => none
  | (k', v) :: rest, k => if k' = k then some v else lookupRow rest k

/-- `{"désignation", "designation", "libellé", "libelle", "desc", "poste"}`:
the description-column header keywords of `convert_table_data_to_charges`. -/
def descKeywords : List Str :=
  ["désignation", "designation", "libellé", "libelle", "desc", "poste"].map
    String.data

/-- `{"montant", "total", "ht", "ttc", "somme", "euros"}`: the amount-column
header keywords. -/
def amountKeywords : List Str :=
  ["montant", "total", "ht", "ttc", "somme", "euros"].map String.data

/-- The header scan of `convert_table_data_to_charges` (lines 287–292): for
each header cell in order, a description-keyword substring match assigns the
description column, otherwise an amount-keyword substring match assigns the
amount column; later matches overwrite earlier ones. -/
def scanHeader : List (Str × Str) → Option Str × Option Str → Option Str × Option Str
  | [], acc => acc
  | (col, v) :: rest, (d, a) =>
    let lv := lowerStr v
    if descKeywords.any fun k => substrB k lv then scanHeader rest (some col, a)
    else if amountKeywords.any fun k => substrB k lv then
      scanHeader rest (d, some col)
    else scanHeader rest (d, a)

/-- Python truthiness of a possibly missing column name (`None` and the empty
string are falsy). -/
def truthyOpt (o : Option Str) : Bool :=
  match o with
  | none => false
  | some s => !s.isEmpty

/-- `re.search(r'\d+([,.]\d+)?', s)` used as an existence test: it succeeds
exactly when `s` contains a digit. -/
def hasDigit (s : Str) : Bool := s.any isDigitChar

/-- The numeric-column search of lines 303–311: first column of `cols` (the
caller passes them already reversed) for which some non-header row has a
digit-bearing value. -/
def findAmountCol (rows : List Row) : List Str → Option Str
  | [] => none
  | c :: rest =>
    if rows.any fun r =>
        match lookupRow r c with
        | some v => hasDigit v
        | none => false then
      some c
    else findAmountCol rows rest

/-- The match of `re.search(r'(\d+[,.]\d+|\d+)', s)` at a position where `s`
starts with a digit: the maximal digit run, extended by a separator and a
second digit run when present. -/
def numAt (s : Str) : Str :=
  let r1 := s.takeWhile isDigitChar
  let rest := s.dropWhile isDigitChar
  match rest with
  | sep :: rest2 =>
    if sep = ',' ∨ sep = '.' then
      let r2 := rest2.takeWhile isDigitChar
      if r2.isEmpty then r1 else r1 ++ sep :: r2
    else r1
  | [] => r1

/-- `re.search(r'(\d+[,.]\d+|\d+)', s)`: the leftmost decimal-number match. -/
def firstNumMatch : Str → Option Str
  | [] => none
  | c :: cs => if isDigitChar c then some (numAt (c :: cs)) else firstNumMatch cs

/-- Digit-run value. -/
def digitsToNat (s : Str) : ℕ := s.foldl (fun acc c => 10 * acc + (c.toNat - 48)) 0

/-- `float(s)` on a matched decimal literal (digits, optionally `.` digits),
modelled exactly as a rational. -/
def parseFloatQ (s : Str) : ℚ :=
  let ip := s.takeWhile isDigitChar
  let rest := s.dropWhile isDigitChar
  match rest with
  | '.' :: fp => (digitsToNat ip : ℚ) + (digitsToNat fp : ℚ) / ((10 : ℚ) ^ fp.length)
  | _ => (digitsToNat ip : ℚ)

/-- A `{"poste": ..., "montant": ...}` record. -/
structure PosteMontant where
  poste : Str
  montant : ℚ
  deriving DecidableEq, Repr

/-- The rejected total/subtotal labels of line 326. -/
def totalLabels : List Str :=
  ["total", "sous-total", "somme", "montant"].map String.data

/-- The data-row loop of `convert_table_data_to_charges` (lines 320–337):
needs both columns present, rejects empty or total-labelled descriptions,
extracts the first decimal number from the amount cell after removing
spaces, and converts commas to decimal points. -/
def rowsToCharges (dc ac : Option Str) : List Row → List PosteMontant
  | [] => []
  | row :: rest =>
    let tail := rowsToCharges dc ac rest
    match dc, ac with
    | some dcol, some acol =>
      match lookupRow row dcol, lookupRow row acol with
      | some dv, some av =>
        let desc := stripStr dv
        let amount_str := stripStr av
        if desc.isEmpty || totalLabels.contains (lowerStr desc) then tail
        else
          match firstNumMatch (amount_str.filter fun c => c ≠ ' ') with
          | some m =>
            ⟨desc, parseFloatQ (m.map fun c => if c = ',' then '.' else c)⟩ :: tail
          | none => tail
      | _, _ => tail
    | _, _ => tail

/-- `convert_table_data_to_charges` (table_detector.py lines 264–339). -/
def convert_table_data_to_charges (table_data : List Row) : List PosteMontant :=
  match table_data with
  | [] => []
  | header :: rest =>
    let scanned := scanHeader header (none, none)
    let d0 := scanned.1
    let a0 := scanned.2
    let cols := header.map fun kv => kv.1
    let d1 :=
      if (!truthyOpt d0 || !truthyOpt a0) && decide (2 ≤ cols.length) &&
          !truthyOpt d0 then
        some (cols.headD [])
      else d0
    let a1 :=
      if (!truthyOpt d0 || !truthyOpt a0) && decide (2 ≤ cols.length) &&
          !truthyOpt a0 then
        findAmountCol rest cols.reverse
      else a0
    let d2 :=
      if !truthyOpt d1 && !header.isEmpty then some (cols.headD []) else d1
    let a2 :=
      if !truthyOpt a1 && !header.isEmpty then some (cols.getLastD []) else a1
    rowsToCharges d2 a2 rest

/-- `est_rows = max(3, height // 50)` (table_detector.py line 194). -/
def estRows (height : ℕ) : ℕ := max 3 (height / 50)

/-- `est_cols = max(3, width // 100)` (line 195). -/
def estCols (width : ℕ) : ℕ := max 3 (width / 100)

/-- `h_clusters = [i * row_height for i in range(est_rows + 1)]` with
`row_height = height // est_rows` (lines 197–200). -/
def hClusters (height : ℕ) : List ℕ :=
  (List.range (estRows height + 1)).map fun i => i * (height / estRows height)

/-- `v_clusters = [i * col_width for i in range(est_cols + 1)]` (lines 198–201). -/
def vClusters (width : ℕ) : List ℕ :=
  (List.range (estCols width + 1)).map fun i => i * (width / estCols width)

/-- The grid construction of `ocr_table_by_grid` (table_detector.py lines
176–239). Per-cell OCR runs on sub-images and is abstracted as the oracle
`cell`; the claims about this function concern only the grid shape. An
image with a zero dimension is rejected up front (`table_img.size == 0`). -/
def ocr_table_by_grid (height width : ℕ) (cell : ℕ → ℕ → Str) : List Row :=
  if height = 0 ∨ width = 0 then []
  else
    let rows := (hClusters height).length - 1
    let cols := (vClusters width).length - 1
    (List.range rows).map fun i =>
      (List.range cols).map fun j => ("col_".data ++ (toString j).data, cell i j)

/-- The acceptance test of each deterministic tier:
`charges and len(charges) >= 3`. -/
def acceptB (l : List PosteMontant) : Bool := !l.isEmpty && decide (3 ≤ l.length)

/-- `extract_charged_amounts_from_reddition` (charges_analyzer.py lines
180–303). The three deterministic tiers run external CV/pandas/regex code
and are abstracted as parameters: `tier1` is `detect_and_extract_tables`
(whose exceptions are caught at line 203), `tier2` is
`extract_charges_from_table` applied to `detect_table_structure`'s result
(`none` when no table structure was detected), `tier3` is
`extract_structured_data_from_text`. When every tier fails its
`charges and len(charges) >= 3` test, control reaches step 4 at line 221,
where formatting the prompt f-string raises
`ValueError: Invalid format specifier`: the `Format précis de la réponse
JSON` block of the prompt (lines 248–255) leaves its braces unescaped —
unlike the fallback prompt at lines 329–334, which correctly doubles them —
and the raise sits outside every `try` of the function, so it propagates to
the caller before `send_openai_request` (line 258) can run. The text
oracle is therefore never consulted; the validation loop at lines 264–293
and the last-resort `extract_charged_amounts_fallback` (itself truncated
mid-body: a bare `try` at line 351 ends the file) are unreachable and are
not modelled. -/
def extract_charged_amounts_from_reddition (tier1 : Except Unit (List PosteMontant))
    (tier2 : Option (List PosteMontant)) (tier3 : List PosteMontant) :
    Except PyErr (List PosteMontant) :=
  let afterT2 : Except PyErr (List PosteMontant) :=
    if acceptB tier3 then .ok tier3 else .error .valueError
  let afterT1 : Except PyErr (List PosteMontant) :=
    match tier2 with
    | some l => if acceptB l then .ok l else afterT2
    | none => afterT2
  match tier1 with
  | .ok l => if acceptB l then .ok l else afterT1
  | .error _ => afterT1

/-- Maximal word-character runs of a string: the positions at which a
whole-word pattern of word characters can match between two `\b`
boundaries. Used only in proofs about `rmAux`. -/
def tokensW : Str → List Str
  | [] => []
  | c :: cs =>
    if isWordChar c then (c :: cs.takeWhile isWordChar) :: tokensW (cs.dropWhile isWordChar)
    else tokensW cs
termination_by s => s.length
decreasing_by
  · exact Nat.lt_succ_of_le (List.Sublist.length_le (List.dropWhile_sublist _))
  · simp

/-- The categories of end-to-end scenario 1. -/
def c4Categories : List RawCharge :=
  [⟨none, some "Nettoyage".data, none⟩, ⟨none, some "Chauffage".data, none⟩]

/-- The charges of end-to-end scenario 1. -/
def c4Charges : List RawCharge :=
  [⟨some "NETTOYAGE".data, none, some 1200⟩, ⟨some "EAU".data, none, some 500⟩]

/-- The rows of end-to-end scenario 3. -/
def c6Rows : List Row :=
  [[("col_0".data, "Poste".data), ("col_1".data, "Montant".data)],
    [("col_0".data, "TOTAL".data), ("col_1".data, "500".data)],
    [("col_0".data, "Gardiennage".data), ("col_1".data, "1 500,00".data)]]

set_option maxRecDepth 40000

/-- C1: false as claimed — for a pair of normalized keys where one is a proper
substring of the other (here "nettoyage" ⊂ "nettoyage locaux"), the
substring tier of `find_similar_charges` does not return an overlap ratio
and does not fall through to token-set scoring: the `max(...)` generator at
line 94 compares a token *list* with a string, so the call raises
`TypeError` (the code slip contradicts its own "plus longue sous-chaîne
commune" comment and the spec's stated intent). -/
theorem c1_substring_tier_raises_typeerror :
    find_similar_charges [⟨none, some "Nettoyage locaux".data, none⟩]
      [⟨some "Nettoyage".data, none, some 100⟩] = .error .typeError := by
  with_unfolding_all decide

/-- C3: for every non-empty ranked candidate list whose best candidate has
similarity exactly 0.8, `evaluate_charge_conformity` classifies the charge
as "à vérifier", not "conforme": the conforme tier requires similarity
strictly greater than 0.8. -/
theorem c3_boundary_exactly_08_a_verifier (best : MatchCand) (rest : List MatchCand)
    (h : best.similarity = (0.8 : ℚ)) :
    (evaluate_charge_conformity (best :: rest)).conformite = "à vérifier".data ∧
      (evaluate_charge_conformity (best :: rest)).conformite ≠ "conforme".data := by
  have h1 : ¬ best.similarity > (0.8 : ℚ) := by rw [h]; norm_num
  have h2 : best.similarity > (0.5 : ℚ) := by rw [h]; norm_num
  refine ⟨?_, ?_⟩ <;> simp [evaluate_charge_conformity, h1, h2]

/-- Witness for C3 at a concrete candidate with similarity exactly 0.8. -/
theorem c3_boundary_exactly_08_a_verifier_witness :
    (evaluate_charge_conformity
        [⟨⟨⟨none, some "Nettoyage".data, none⟩, "nettoyage".data⟩, (0.8 : ℚ)⟩]).conformite =
      "à vérifier".data ∧
    (evaluate_charge_conformity
        [⟨⟨⟨none, some "Nettoyage".data, none⟩, "nettoyage".data⟩, (0.8 : ℚ)⟩]).conformite ≠
      "conforme".data :=
  c3_boundary_exactly_08_a_verifier _ [] rfl

/-- C4: a code bug, not the claimed behaviour. On the scenario-1 input the
`try` block of `analyse_charges_conformity_local` does compute the claimed
analysis into its local `resultat` — conformities [conforme, non conforme],
similarity 1.0 for "NETTOYAGE" against "Nettoyage", an empty candidate list
for "EAU", total 1700, compliance rate round(1200/1700*100) = 71 — but the
block contains no `return resultat`, so the function returns `None` and
those values are never produced (and the handler's `return {...}at` at line
274 is a syntax error, so the module cannot even be imported). -/
theorem c4_local_analysis_scenario1 :
    (analyseBody c4Categories c4Charges).map
        (fun r => r.charges_facturees.map fun c => c.conformite) =
      .ok ["conforme".data, "non conforme".data] ∧
    (analyseBody c4Categories c4Charges).map (fun r => r.montant_total) = .ok 1700 ∧
    (analyseBody c4Categories c4Charges).map
        (fun r => r.analyse_globale.taux_conformite) = .ok 71 ∧
    (find_similar_charges c4Categories c4Charges).map
        (fun d => (dictGetD d "nettoyage".data []).map fun m => m.similarity) = .ok [1] ∧
    (find_similar_charges c4Categories c4Charges).map
        (fun d => dictGetD d "eau".data []) = .ok [] ∧
    pyRound ((1200 : ℚ) / 1700 * 100) = 71 ∧
    analyse_charges_conformity_local c4Categories c4Charges = none := by
  with_unfolding_all decide

/-- C5: false as claimed, twice over. First, the analysis loop substitutes
percentage 0 whenever the total is not strictly positive, not only when it
is zero: with the single charge `{"poste": "entretien", "montant": -100}`
the total is −100 ≠ 0, the claim's formula amount/total×100 gives 100, but
the verdict built into the local `charges_analysees` carries percentage 0.
Second, no verdict is ever emitted at all: the `try` block lacks
`return resultat`, so the function returns `None` on this (and every)
input. -/
theorem c5_negative_total_counterexample :
    (analyseBody [] [⟨some "entretien".data, none, some (-100)⟩]).map
        (fun r => r.charges_facturees.map fun c => c.pourcentage) = .ok [0] ∧
    (analyseBody [] [⟨some "entretien".data, none, some (-100)⟩]).map
        (fun r => r.montant_total) = .ok (-100) ∧
    (-100 : ℚ) / (-100) * 100 = 100 ∧
    analyse_charges_conformity_local [] [⟨some "entretien".data, none, some (-100)⟩] =
      none := by
  with_unfolding_all decide

/-- C6: end-to-end scenario 3 — the header row is skipped, the TOTAL row is
rejected by the case-insensitive exact label match, and "1 500,00" parses to
1500.0 (thousands space stripped, comma decimal separator handled), leaving
exactly one record. -/
theorem c6_record_assembly_scenario3 :
    convert_table_data_to_charges c6Rows = [⟨"Gardiennage".data, 1500⟩] := by
  with_unfolding_all decide

/-- C7: for every non-empty table image, the synthetic grid has
`max(3, height/50)` rows and `max(3, width/100)` columns (so at least 3×3,
and each boundary list has at least 2 entries); in particular a 150×300
region yields exactly 3 rows of 3 columns. -/
theorem c7_grid_shape (height width : ℕ) (cell : ℕ → ℕ → Str)
    (hh : 0 < height) (hw : 0 < width) :
    (ocr_table_by_grid height width cell).length = max 3 (height / 50) ∧
    (∀ r ∈ ocr_table_by_grid height width cell, r.length = max 3 (width / 100)) ∧
    2 ≤ (hClusters height).length ∧ 2 ≤ (vClusters width).length ∧
    (ocr_table_by_grid 150 300 cell).length = 3 ∧
    (∀ r ∈ ocr_table_by_grid 150 300 cell, r.length = 3) := by
  have hg : ∀ (h' w' : ℕ), 0 < h' → 0 < w' →
      (ocr_table_by_grid h' w' cell).length = max 3 (h' / 50) ∧
      ∀ r ∈ ocr_table_by_grid h' w' cell, r.length = max 3 (w' / 100) := by
    intro h' w' hh' hw'
    unfold ocr_table_by_grid
    rw [if_neg (by omega)]
    constructor
    · simp [hClusters, estRows]
    · intro r hr
      simp only [List.mem_map] at hr
      obtain ⟨i, _, rfl⟩ := hr
      simp [vClusters, estCols]
  refine ⟨(hg height width hh hw).1, (hg height width hh hw).2, ?_, ?_, ?_, ?_⟩
  · simp [hClusters, estRows]
  · simp [vClusters, estCols]
  · simpa using (hg 150 300 (by norm_num) (by norm_num)).1
  · simpa using (hg 150 300 (by norm_num) (by norm_num)).2

/-- Witness for C7 at the 150×300 region with blank cells. -/
theorem c7_grid_shape_witness :
    (ocr_table_by_grid 150 300 fun _ _ => []).length = 3 ∧
    2 ≤ (hClusters 150).length :=
  ⟨(c7_grid_shape 150 300 (fun _ _ => []) (by norm_num) (by norm_num)).2.2.2.2.1,
    (c7_grid_shape 150 300 (fun _ _ => []) (by norm_num) (by norm_num)).2.2.1⟩

/-- C8: false as claimed — the grid code never pads the boundary lists with
the far page edge. At height 611 the row boundaries stop at 600, which is
11px (more than 10px) short of the edge, yet 611 is not in the list, so an
11px strip of the region lies outside the last cell. -/
theorem c8_no_edge_padding_counterexample :
    (∀ b ∈ hClusters 611, b ≤ 600) ∧ (611 : ℕ) ∉ hClusters 611 ∧
      (600 : ℕ) ∈ hClusters 611 ∧ 10 < 611 - 600 := by decide

/-- C8 amended: the boundary lists always contain 0, but the far page edge is
never appended: every boundary is at most `extent - extent % count`
(`count` the synthetic row/column count), that value is itself the largest
boundary, the residual strip of `extent % count` pixels — which can exceed
10px — lies outside the last cell, and whenever `count` does not divide the
extent the edge itself is absent from the list, however large the residual. -/
theorem c8_boundaries_start_at_zero_and_stop_short (height width : ℕ) :
    (0 : ℕ) ∈ hClusters height ∧ (0 : ℕ) ∈ vClusters width ∧
    (∀ b ∈ hClusters height, b ≤ height - height % estRows height) ∧
    (∀ b ∈ vClusters width, b ≤ width - width % estCols width) ∧
    (height - height % estRows height) ∈ hClusters height ∧
    (width - width % estCols width) ∈ vClusters width ∧
    (height % estRows height ≠ 0 → (height : ℕ) ∉ hClusters height) ∧
    (width % estCols width ≠ 0 → (width : ℕ) ∉ vClusters width) := by
  have key : ∀ (n e : ℕ), 0 < e →
      (0 : ℕ) ∈ (List.range (e + 1)).map (fun i => i * (n / e)) ∧
      (∀ b ∈ (List.range (e + 1)).map (fun i => i * (n / e)), b ≤ n - n % e) ∧
      (n - n % e) ∈ (List.range (e + 1)).map (fun i => i * (n / e)) ∧
      (n % e ≠ 0 → n ∉ (List.range (e + 1)).map (fun i => i * (n / e))) := by
    intro n e he
    have hde : e * (n / e) = n - n % e := by
      have := Nat.div_add_mod n e
      omega
    have hmn : n % e ≤ n := Nat.mod_le n e
    refine ⟨?_, ?_, ?_, ?_⟩
    · exact List.mem_map.mpr ⟨0, List.mem_range.mpr (by omega), by simp⟩
    · intro b hb
      obtain ⟨i, hi, rfl⟩ := List.mem_map.mp hb
      have : i ≤ e := by simpa [Nat.lt_succ_iff] using List.mem_range.mp hi
      calc i * (n / e) ≤ e * (n / e) := Nat.mul_le_mul_right _ this
        _ = n - n % e := hde
    · exact List.mem_map.mpr ⟨e, List.mem_range.mpr (by omega), hde⟩
    · intro hmod hmem
      obtain ⟨i, hi, hiq⟩ := List.mem_map.mp hmem
      have hie : i ≤ e := by simpa [Nat.lt_succ_iff] using List.mem_range.mp hi
      have h1 : i * (n / e) ≤ e * (n / e) := Nat.mul_le_mul_right _ hie
      rw [hiq, hde] at h1
      omega
  have hr : 0 < estRows height := by simp [estRows]
  have hc : 0 < estCols width := by simp [estCols]
  have h1 := key height (estRows height) hr
  have h2 := key width (estCols width) hc
  exact ⟨h1.1, h2.1, h1.2.1, h2.2.1, h1.2.2.1, h2.2.2.1, h1.2.2.2, h2.2.2.2⟩

/-- Witness for C8 amended at height 611 (row count 12): the largest boundary
is 600 = 611 - 611 % 12, 11px short of the page edge, and 611 itself is not
in the boundary list. -/
theorem c8_boundaries_witness :
    (600 : ℕ) ≤ 611 - 611 % estRows 611 ∧ (611 : ℕ) ∉ hClusters 611 :=
  ⟨(c8_boundaries_start_at_zero_and_stop_short 611 300).2.2.1 600 (by decide),
    (c8_boundaries_start_at_zero_and_stop_short 611 300).2.2.2.2.2.2.1 (by decide)⟩

/-- Each deterministic tier is accepted exactly when it yields at least 3
records (`charges and len(charges) >= 3`). -/
theorem acceptB_iff (l : List PosteMontant) : acceptB l = true ↔ 3 ≤ l.length := by
  cases l <;> simp [acceptB]

/-- C9: a code bug — the text oracle is never consulted. The function
propagates a `ValueError` exactly when every deterministic tier yields
fewer than 3 records (a tier-1 exception counts as yielding none): that is
when control reaches the tier-4 prompt construction at line 221, whose
f-string raises on its unescaped JSON braces before `send_openai_request`
can run. Conversely, every list the function does return comes from one of
the deterministic tiers and passed that tier's own ≥ 3 test — no
oracle-returned entry, validated or not, is ever emitted, the validation
loop at lines 264–293 being unreachable. -/
theorem c9_oracle_never_consulted (tier1 : Except Unit (List PosteMontant))
    (tier2 : Option (List PosteMontant)) (tier3 : List PosteMontant) :
    (extract_charged_amounts_from_reddition tier1 tier2 tier3 =
        .error .valueError ↔
      (∀ l, tier1 = .ok l → l.length < 3) ∧ (∀ l, tier2 = some l → l.length < 3) ∧
        tier3.length < 3) ∧
    (∀ l, extract_charged_amounts_from_reddition tier1 tier2 tier3 = .ok l →
      (tier1 = .ok l ∨ tier2 = some l ∨ tier3 = l) ∧ 3 ≤ l.length) := by
  constructor
  · rcases tier1 with e1 | l1 <;> rcases tier2 with _ | l2 <;>
      simp only [extract_charged_amounts_from_reddition] <;>
      split_ifs <;>
      simp_all [acceptB_iff]
  · intro l hl
    rcases tier1 with e1 | l1 <;> rcases tier2 with _ | l2 <;>
      simp only [extract_charged_amounts_from_reddition] at hl <;>
      split_ifs at hl <;>
      simp_all [acceptB_iff]

/-- Witness for C9: one tier-1 record, no tier-2 table, no tier-3 match — the
function raises while formatting the prompt instead of consulting the
oracle. -/
theorem c9_oracle_never_consulted_witness :
    extract_charged_amounts_from_reddition (Except.ok [⟨"a".data, 1⟩]) none [] =
      .error .valueError :=
  (c9_oracle_never_consulted (Except.ok [⟨"a".data, 1⟩]) none []).1.mpr
    ⟨fun l hl => by cases hl; decide,
      fun l hl => Option.noConfusion hl,
      by decide⟩

/-- C10: a code bug, half real and half impossible. The division is real:
whenever the matching dict is computed, the charged amounts sum to zero and
at least one analyzed charge is contestable, the recommendation f-string
divides the contestable sum by the zero total and the `try` block raises
`ZeroDivisionError`. The claimed recovery is not: the handler that catches
it ends in `return {...}at` (line 274), a syntax error, so the fixed
fallback structure can never be returned — the module cannot be imported at
all — and the function as written yields no analysis on any path. -/
theorem c10_zero_total_contestable_fallback (refacturable charged : List RawCharge)
    (d : List (Str × List MatchCand))
    (hfs : find_similar_charges refacturable charged = .ok d)
    (htot : totalOf charged = 0)
    (hcont : ((charged.map (analyseeOf d (totalOf charged))).filter
      fun c => c.contestable) ≠ []) :
    analyseBody refacturable charged = .error .zeroDivisionError ∧
    analyse_charges_conformity_local refacturable charged = none := by
  have hbody : analyseBody refacturable charged = .error .zeroDivisionError := by
    unfold analyseBody
    rw [hfs]
    rw [htot] at hcont
    simp only [recsOf, htot]
    rw [if_neg (by simpa [List.isEmpty_iff] using hcont)]
    simp
  refine ⟨hbody, ?_⟩
  unfold analyse_charges_conformity_local
  rw [hbody]

/-- Witness for C10: one zero-amount charge with no matching category. -/
theorem c10_zero_total_contestable_fallback_witness :
    analyseBody [] [⟨some "entretien".data, none, some 0⟩] = .error .zeroDivisionError ∧
    analyse_charges_conformity_local [] [⟨some "entretien".data, none, some 0⟩] =
      none :=
  c10_zero_total_contestable_fallback [] [⟨some "entretien".data, none, some 0⟩]
    [("entretien".data, [])] (by with_unfolding_all decide)
    (by with_unfolding_all decide) (by with_unfolding_all decide)

/-- Distributing a common division and scaling over a list sum. -/
theorem sum_map_div_mul_100 (l : List ℚ) (T : ℚ) :
    (l.map fun m => m / T * 100).sum = l.sum / T * 100 := by
  induction l with
  | nil => simp
  | cons a as ih =>
    simp only [List.map_cons, List.sum_cons, ih]
    ring

/-- C5 amended: the percentages the analysis loop computes into the local
`charges_analysees` carry amount/total×100 only when the total is strictly
positive, and 0 whenever it is ≤ 0 (the guard is `montant_total > 0`, not
`montant_total != 0`): when the total is positive they sum to exactly 100,
and when it is ≤ 0 every one of them is 0. The enclosing function, however,
never emits them — lacking `return resultat`, it returns `None` on every
input (and the module is unimportable: line 274 is a syntax error). -/
theorem c5_percentages_sum (refacturable charged : List RawCharge) :
    (0 < totalOf charged →
      (analyseBody refacturable charged).map
          (fun r => (r.charges_facturees.map fun c => c.pourcentage).sum) =
        (analyseBody refacturable charged).map fun _ => (100 : ℚ)) ∧
    (totalOf charged ≤ 0 →
      (analyseBody refacturable charged).map
          (fun r => r.charges_facturees.map fun c => c.pourcentage) =
        (analyseBody refacturable charged).map fun r =>
          r.charges_facturees.map fun _ => (0 : ℚ)) ∧
    analyse_charges_conformity_local refacturable charged = none := by
  have key : ∀ r, analyseBody refacturable charged = .ok r →
      (0 < totalOf charged →
        (r.charges_facturees.map fun c => c.pourcentage).sum = 100) ∧
      (totalOf charged ≤ 0 →
        r.charges_facturees.map (fun c => c.pourcentage) =
          r.charges_facturees.map fun _ => (0 : ℚ)) := by
    intro r h
    unfold analyseBody at h
    split at h
    · exact absurd h (by simp)
    · rename_i d hfs
      dsimp only at h
      split at h
      · exact absurd h (by simp)
      · rw [Except.ok.injEq] at h
        subst h
        constructor
        · intro hT
          show ((charged.map (analyseeOf d (totalOf charged))).map
              fun c => c.pourcentage).sum = 100
          have hmap : ((charged.map (analyseeOf d (totalOf charged))).map
                fun c => c.pourcentage)
              = charged.map fun ch => ch.montant.getD 0 / totalOf charged * 100 := by
            rw [List.map_map]
            refine List.map_congr_left fun ch _ => ?_
            simp only [Function.comp_apply, analyseeOf]
            rw [if_pos hT]
          rw [hmap]
          have h2 : charged.map (fun ch => ch.montant.getD 0 / totalOf charged * 100)
              = (charged.map fun ch => ch.montant.getD 0).map
                  fun m => m / totalOf charged * 100 := by
            rw [List.map_map]
            rfl
          rw [h2, sum_map_div_mul_100]
          rw [show (charged.map fun ch => ch.montant.getD 0).sum = totalOf charged from rfl]
          rw [div_self (ne_of_gt hT), one_mul]
        · intro hT
          show (charged.map (analyseeOf d (totalOf charged))).map
              (fun c => c.pourcentage) =
            (charged.map (analyseeOf d (totalOf charged))).map fun _ => (0 : ℚ)
          rw [List.map_map, List.map_map]
          refine List.map_congr_left fun ch _ => ?_
          simp only [Function.comp_apply, analyseeOf]
          rw [if_neg (not_lt.mpr hT)]
  refine ⟨?_, ?_, ?_⟩
  · intro hT
    cases hbody : analyseBody refacturable charged with
    | error e => rfl
    | ok r =>
      simp only [Except.map]
      exact congrArg Except.ok ((key r hbody).1 hT)
  · intro hT
    cases hbody : analyseBody refacturable charged with
    | error e => rfl
    | ok r =>
      simp only [Except.map]
      exact congrArg Except.ok ((key r hbody).2 hT)
  · unfold analyse_charges_conformity_local
    cases analyseBody refacturable charged <;> rfl

/-- Witness for C5 amended at a single 100€ charge (total 100 > 0), together
with the unconditional `None` return. -/
theorem c5_percentages_sum_witness :
    ((analyseBody [] [⟨some "entretien".data, none, some 100⟩]).map
        (fun r => (r.charges_facturees.map fun c => c.pourcentage).sum) =
      (analyseBody [] [⟨some "entretien".data, none, some 100⟩]).map
        fun _ => (100 : ℚ)) ∧
    analyse_charges_conformity_local [] [⟨some "entretien".data, none, some 100⟩] =
      none :=
  ⟨(c5_percentages_sum [] [⟨some "entretien".data, none, some 100⟩]).1
      (by with_unfolding_all decide),
    (c5_percentages_sum [] [⟨some "entretien".data, none, some 100⟩]).2.2⟩

/-- `Char.ofNat` at a scalar value below the surrogate range. -/
theorem toNat_charOfNat_of_lt (n : ℕ) (h : n < 55296) : (Char.ofNat n).toNat = n := by
  unfold Char.ofNat
  rw [dif_pos (Or.inl h)]
  rfl

/-- The scalar value of `lowerChar`. -/
theorem lowerChar_toNat (c : Char) :
    (lowerChar c).toNat =
      if 65 ≤ c.toNat ∧ c.toNat ≤ 90 then c.toNat + 32 else c.toNat := by
  unfold lowerChar
  split
  · rename_i h
    exact toNat_charOfNat_of_lt _ (by omega)
  · rfl

/-- `lowerChar` fixes any character outside the upper-case ASCII range. -/
theorem lowerChar_eq_self_of_not {c : Char} (h : ¬(65 ≤ c.toNat ∧ c.toNat ≤ 90)) :
    lowerChar c = c := by
  unfold lowerChar
  rw [if_neg h]

/-- ASCII lower-casing is idempotent. -/
theorem lowerChar_idem (c : Char) : lowerChar (lowerChar c) = lowerChar c := by
  by_cases h : 65 ≤ c.toNat ∧ c.toNat ≤ 90
  · have ht : (lowerChar c).toNat = c.toNat + 32 := by rw [lowerChar_toNat, if_pos h]
    exact lowerChar_eq_self_of_not (by omega)
  · have h2 : lowerChar c = c := lowerChar_eq_self_of_not h
    rw [h2]
    exact h2

/-- `' '` facts used throughout. -/
theorem space_char_facts :
    isSpaceChar ' ' = true ∧ isWordChar ' ' = false ∧ lowerChar ' ' = ' ' :=
  ⟨by decide, by decide, lowerChar_eq_self_of_not (by decide)⟩

/-- A whitespace character is never a word character. -/
theorem not_word_of_space {c : Char} (h : isSpaceChar c = true) :
    isWordChar c = false := by
  simp only [isSpaceChar, Bool.or_eq_true, beq_iff_eq] at h
  simp only [isWordChar, Bool.or_eq_false_iff, Bool.and_eq_false_iff,
    decide_eq_false_iff_not, not_le, beq_eq_false_iff_ne, ne_eq]
  omega

/-- A word character is never whitespace. -/
theorem not_space_of_word {c : Char} (h : isWordChar c = true) :
    isSpaceChar c = false := by
  simp only [isWordChar, Bool.or_eq_true, Bool.and_eq_true, decide_eq_true_eq,
    beq_iff_eq] at h
  simp only [isSpaceChar, Bool.or_eq_false_iff, beq_eq_false_iff_ne, ne_eq]
  omega

/-- Characters of `collapseAux` output: the replacement space, or a non-space
character of the input. -/
theorem mem_collapseAux {c' : Char} :
    ∀ (b : Bool) (s : Str), c' ∈ collapseAux b s →
      c' = ' ' ∨ (c' ∈ s ∧ isSpaceChar c' = false)
  | b, [], h => by simp [collapseAux] at h
  | b, c :: cs, h => by
    unfold collapseAux at h
    by_cases hsp : isSpaceChar c = true
    · rw [if_pos hsp] at h
      rcases b with _ | _
      · simp only [if_neg Bool.false_ne_true] at h
        rcases List.mem_cons.mp h with h1 | h1
        · exact Or.inl h1
        · rcases mem_collapseAux true cs h1 with h2 | h2
          · exact Or.inl h2
          · exact Or.inr ⟨List.mem_cons_of_mem _ h2.1, h2.2⟩
      · rw [if_pos rfl] at h
        rcases mem_collapseAux true cs h with h2 | h2
        · exact Or.inl h2
        · exact Or.inr ⟨List.mem_cons_of_mem _ h2.1, h2.2⟩
    · rw [if_neg hsp] at h
      rcases List.mem_cons.mp h with h1 | h1
      · exact Or.inr ⟨h1 ▸ List.mem_cons_self _ _, h1 ▸ Bool.not_eq_true _ ▸ (by
          revert hsp
          cases isSpaceChar c <;> simp)⟩
      · rcases mem_collapseAux false cs h1 with h2 | h2
        · exact Or.inl h2
        · exact Or.inr ⟨List.mem_cons_of_mem _ h2.1, h2.2⟩

/-- `rmAux` only deletes characters. -/
theorem mem_rmAux {w : Str} {c' : Char} :
    ∀ (s : Str) (k : ℕ) (b : Bool), c' ∈ rmAux w k b s → c' ∈ s
  | [], k, b, h => by simp [rmAux] at h
  | c :: cs, Nat.succ k, b, h =>
    List.mem_cons_of_mem _ (mem_rmAux cs k _ h)
  | c :: cs, 0, b, h => by
    unfold rmAux at h
    split at h
    · exact List.mem_cons_of_mem _ (mem_rmAux cs _ _ h)
    · rcases List.mem_cons.mp h with h1 | h1
      · exact h1 ▸ List.mem_cons_self _ _
      · exact List.mem_cons_of_mem _ (mem_rmAux cs _ _ h1)

/-- The stop-word removal loop only deletes characters. -/
theorem mem_foldl_removeStop {c' : Char} :
    ∀ (ws : List Str) (s : Str), c' ∈ ws.foldl removeStop s → c' ∈ s
  | [], s, h => h
  | w :: ws, s, h => mem_rmAux _ _ _ (mem_foldl_removeStop ws (removeStop s w) h)

/-- `dropTrailingWS` keeps a prefix of its input. -/
theorem dropTrailingWS_front (t : Str) : dropTrailingWS t <+: t := by
  unfold dropTrailingWS
  have h : t.reverse.dropWhile isSpaceChar <:+ t.reverse := List.dropWhile_suffix _
  simpa using List.reverse_prefix.mpr h

/-- `stripStr` only deletes characters. -/
theorem mem_stripStr {c' : Char} {s : Str} (h : c' ∈ stripStr s) : c' ∈ s := by
  unfold stripStr at h
  exact ((List.dropWhile_sublist _).mem ((dropTrailingWS_front _).sublist.mem h))

/-- Pointwise-fixed maps are the identity. -/
theorem map_eq_self {α : Type} {l : List α} {f : α → α} (h : ∀ c ∈ l, f c = c) :
    l.map f = l := by
  rw [List.map_congr_left h]
  exact List.map_id' l

/-- Every character of a normalized name is lower-case-fixed and is either a
word character or the plain space. -/
theorem charP_standardizeName {x : Str} {c : Char} (h : c ∈ standardizeName x) :
    lowerChar c = c ∧ (isWordChar c = true ∨ c = ' ') := by
  have hz : c ∈ collapseWS (depunct (lowerStr x)) :=
    mem_foldl_removeStop _ _ (mem_stripStr h)
  rcases mem_collapseAux false _ hz with h1 | ⟨h1, hns⟩
  · exact ⟨h1 ▸ space_char_facts.2.2, Or.inr h1⟩
  · rcases List.mem_map.mp h1 with ⟨d, hd, rfl⟩
    by_cases hws : isWordChar d || isSpaceChar d
    · rw [if_pos hws]
      rcases List.mem_map.mp hd with ⟨e, _, rfl⟩
      refine ⟨lowerChar_idem e, ?_⟩
      rw [if_pos hws] at hns
      rcases Bool.or_eq_true_iff.mp hws with hw | hs
      · exact Or.inl hw
      · rw [hs] at hns
        exact absurd hns (by simp)
    · rw [if_neg hws] at hns ⊢
      exact absurd hns (by rw [space_char_facts.1]; simp)

/-- Lower-casing fixes a normalized name. -/
theorem lowerStr_standardizeName (x : Str) :
    lowerStr (standardizeName x) = standardizeName x :=
  map_eq_self fun _ hc => (charP_standardizeName hc).1

/-- Punctuation replacement fixes a normalized name. -/
theorem depunct_standardizeName (x : Str) :
    depunct (standardizeName x) = standardizeName x := by
  refine map_eq_self fun c hc => ?_
  rcases (charP_standardizeName hc).2 with hw | hsp
  · rw [if_pos (by rw [hw]; rfl)]
  · rw [if_pos (by rw [hsp, space_char_facts.1, Bool.or_true])]

/-- Unfolding `collapseAux` at a whitespace head with the flag down. -/
theorem collapseAux_cons_space_false {c : Char} (h : isSpaceChar c = true) (cs : Str) :
    collapseAux false (c :: cs) = ' ' :: collapseAux true cs := by
  conv_lhs => unfold collapseAux
  rw [if_pos h, if_neg Bool.false_ne_true]

/-- Unfolding `collapseAux` at a whitespace head with the flag up. -/
theorem collapseAux_cons_space_true {c : Char} (h : isSpaceChar c = true) (cs : Str) :
    collapseAux true (c :: cs) = collapseAux true cs := by
  conv_lhs => unfold collapseAux
  rw [if_pos h, if_pos rfl]

/-- Unfolding `collapseAux` at a non-whitespace head. -/
theorem collapseAux_cons_nonspace {c : Char} (h : isSpaceChar c = false) (b : Bool)
    (cs : Str) : collapseAux b (c :: cs) = c :: collapseAux false cs := by
  conv_lhs => unfold collapseAux
  rw [if_neg (by rw [h]; simp)]

/-- The whitespace-collapsing scan is idempotent. -/
theorem collapseAux_collapseAux : ∀ (s : Str) (b : Bool),
    collapseAux b (collapseAux b s) = collapseAux b s
  | [], b => rfl
  | c :: cs, b => by
    by_cases hsp : isSpaceChar c = true
    · rcases b with _ | _
      · rw [collapseAux_cons_space_false hsp,
          collapseAux_cons_space_false space_char_facts.1,
          collapseAux_collapseAux cs true]
      · rw [collapseAux_cons_space_true hsp, collapseAux_collapseAux cs true]
    · have hns : isSpaceChar c = false := by
        revert hsp
        cases isSpaceChar c <;> simp
      rw [collapseAux_cons_nonspace hns, collapseAux_cons_nonspace hns,
        collapseAux_collapseAux cs false]

/-- `re.sub(r'\s+', ' ')` is idempotent. -/
theorem collapseWS_idem (s : Str) : collapseWS (collapseWS s) = collapseWS s :=
  collapseAux_collapseAux s false

/-- The empty string satisfies `headNotSpace`. -/
theorem headNotSpace_nil : headNotSpace ([] : Str) := fun c hc => by simp at hc

/-- `headNotSpace` on a cons. -/
theorem headNotSpace_cons {c : Char} {cs : Str} :
    headNotSpace (c :: cs) ↔ isSpaceChar c = false := by
  constructor
  · intro h
    exact h c rfl
  · intro h d hd
    rw [List.head?_cons, Option.some.injEq] at hd
    rwa [← hd]

/-- After dropping leading whitespace nothing spacey leads. -/
theorem headNotSpace_dropWhileSpace : ∀ l : Str, headNotSpace (l.dropWhile isSpaceChar)
  | [] => headNotSpace_nil
  | c :: cs => by
    by_cases hsp : isSpaceChar c = true
    · rw [List.dropWhile_cons_of_pos hsp]
      exact headNotSpace_dropWhileSpace cs
    · rw [List.dropWhile_cons_of_neg hsp]
      exact headNotSpace_cons.mpr (by simpa using hsp)

/-- `headNotSpace` transfers to prefixes. -/
theorem headNotSpace_mono {u t : Str} (h : u <+: t) (ht : headNotSpace t) :
    headNotSpace u := by
  rcases u with _ | ⟨a, u'⟩
  · exact headNotSpace_nil
  · rcases h with ⟨r, hr⟩
    rw [← hr] at ht
    exact headNotSpace_cons.mpr (headNotSpace_cons.mp ht)

/-- A string with no leading whitespace is fixed by leading-whitespace
removal. -/
theorem dropWhileSpace_eq_self {t : Str} (h : headNotSpace t) :
    t.dropWhile isSpaceChar = t := by
  rcases t with _ | ⟨c, cs⟩
  · rfl
  · exact List.dropWhile_cons_of_neg (by rw [headNotSpace_cons.mp h]; simp)

/-- A string with neither leading nor trailing whitespace is fixed by
`strip()`. -/
theorem stripStr_eq_self {t : Str} (h1 : headNotSpace t)
    (h2 : headNotSpace t.reverse) : stripStr t = t := by
  unfold stripStr dropTrailingWS
  rw [dropWhileSpace_eq_self h1, dropWhileSpace_eq_self h2, List.reverse_reverse]

/-- `strip()` output has no leading whitespace. -/
theorem headNotSpace_stripStr (q : Str) : headNotSpace (stripStr q) :=
  headNotSpace_mono (dropTrailingWS_front _) (headNotSpace_dropWhileSpace q)

/-- `strip()` output has no trailing whitespace. -/
theorem headNotSpace_reverse_stripStr (q : Str) : headNotSpace (stripStr q).reverse := by
  unfold stripStr dropTrailingWS
  rw [List.reverse_reverse]
  exact headNotSpace_dropWhileSpace _

/-- The head of an append with a non-empty left part. -/
theorem headNotSpace_append_left {u v : Str} (h : u ≠ []) :
    headNotSpace (u ++ v) ↔ headNotSpace u := by
  rcases u with _ | ⟨a, u'⟩
  · exact absurd rfl h
  · rw [List.cons_append, headNotSpace_cons, headNotSpace_cons]

/-- Collapsing preserves absence of leading whitespace. -/
theorem headNotSpace_collapseWS {s : Str} (h : headNotSpace s) :
    headNotSpace (collapseWS s) := by
  rcases s with _ | ⟨c, cs⟩
  · exact headNotSpace_nil
  · unfold collapseWS
    rw [collapseAux_cons_nonspace (headNotSpace_cons.mp h)]
    exact headNotSpace_cons.mpr (headNotSpace_cons.mp h)

/-- Collapsing a string whose last character is not whitespace gives a
non-empty result. -/
theorem collapseAux_ne_nil : ∀ (s : Str) (b : Bool), s ≠ [] →
    headNotSpace s.reverse → collapseAux b s ≠ []
  | [], _, h, _ => absurd rfl h
  | c :: cs, b, _, hrev => by
    by_cases hcs : cs = []
    · subst hcs
      have hc : isSpaceChar c = false := headNotSpace_cons.mp (by simpa using hrev)
      rw [collapseAux_cons_nonspace hc]
      simp
    · have hcs' : headNotSpace cs.reverse := by
        rw [List.reverse_cons] at hrev
        exact (headNotSpace_append_left (by simpa using hcs)).mp hrev
      by_cases hsp : isSpaceChar c = true
      · rcases b with _ | _
        · rw [collapseAux_cons_space_false hsp]
          simp
        · rw [collapseAux_cons_space_true hsp]
          exact collapseAux_ne_nil cs true hcs hcs'
      · rw [collapseAux_cons_nonspace (by simpa using hsp)]
        simp

/-- Collapsing preserves absence of trailing whitespace. -/
theorem headNotSpace_reverse_collapseAux : ∀ (s : Str) (b : Bool),
    headNotSpace s.reverse → headNotSpace (collapseAux b s).reverse
  | [], _, _ => headNotSpace_nil
  | c :: cs, b, hrev => by
    by_cases hcs : cs = []
    · subst hcs
      have hc : isSpaceChar c = false := headNotSpace_cons.mp (by simpa using hrev)
      rw [collapseAux_cons_nonspace hc]
      simpa using hrev
    · have hcs' : headNotSpace cs.reverse := by
        rw [List.reverse_cons] at hrev
        exact (headNotSpace_append_left (by simpa using hcs)).mp hrev
      have hne : ∀ b', collapseAux b' cs ≠ [] := fun b' =>
        collapseAux_ne_nil cs b' hcs hcs'
      have hih : ∀ b', headNotSpace (collapseAux b' cs).reverse := fun b' =>
        headNotSpace_reverse_collapseAux cs b' hcs'
      by_cases hsp : isSpaceChar c = true
      · rcases b with _ | _
        · rw [collapseAux_cons_space_false hsp, List.reverse_cons]
          exact (headNotSpace_append_left (by simpa using hne true)).mpr (hih true)
        · rw [collapseAux_cons_space_true hsp]
          exact hih true
      · rw [collapseAux_cons_nonspace (by simpa using hsp), List.reverse_cons]
        exact (headNotSpace_append_left (by simpa using hne false)).mpr (hih false)

/-- A normalized name has no leading whitespace. -/
theorem headNotSpace_standardizeName (x : Str) : headNotSpace (standardizeName x) := by
  rw [standardizeName]
  exact headNotSpace_stripStr _

/-- A normalized name has no trailing whitespace. -/
theorem headNotSpace_reverse_standardizeName (x : Str) :
    headNotSpace (standardizeName x).reverse := by
  rw [standardizeName]
  exact headNotSpace_reverse_stripStr _

/-- `strip()` fixes the collapse of a normalized name. -/
theorem stripStr_collapseWS_standardizeName (x : Str) :
    stripStr (collapseWS (standardizeName x)) = collapseWS (standardizeName x) :=
  stripStr_eq_self (headNotSpace_collapseWS (headNotSpace_standardizeName x))
    (headNotSpace_reverse_collapseAux _ _ (headNotSpace_reverse_standardizeName x))

/-- `tokensW []`. -/
theorem tokensW_nil : tokensW [] = [] := by simp [tokensW]

/-- `tokensW` at a word-character head. -/
theorem tokensW_cons_word {c : Char} (h : isWordChar c = true) (cs : Str) :
    tokensW (c :: cs) = (c :: cs.takeWhile isWordChar) :: tokensW (cs.dropWhile isWordChar) := by
  rw [tokensW]
  rw [if_pos h]

/-- `tokensW` at a non-word head. -/
theorem tokensW_cons_nonword {c : Char} (h : isWordChar c = false) (cs : Str) :
    tokensW (c :: cs) = tokensW cs := by
  rw [tokensW]
  rw [if_neg (by rw [h]; simp)]

/-- `tokensW` for a word-character-headed string, phrased with the full
`takeWhile`/`dropWhile`. -/
theorem tokensW_eq_of_head_word {c : Char} {cs : Str} (h : isWordChar c = true) :
    tokensW (c :: cs) =
      (c :: cs).takeWhile isWordChar :: tokensW ((c :: cs).dropWhile isWordChar) := by
  rw [tokensW_cons_word h, List.takeWhile_cons_of_pos h, List.dropWhile_cons_of_pos h]

/-- Dropping leading whitespace does not change the word tokens. -/
theorem tokensW_dropWhileSpace : ∀ l : Str, tokensW (l.dropWhile isSpaceChar) = tokensW l
  | [] => rfl
  | c :: cs => by
    by_cases hsp : isSpaceChar c = true
    · rw [List.dropWhile_cons_of_pos hsp, tokensW_dropWhileSpace cs,
        tokensW_cons_nonword (not_word_of_space hsp)]
    · rw [List.dropWhile_cons_of_neg hsp]

/-- An all-nonword string has no word tokens. -/
theorem tokensW_eq_nil_of_all_nonword : ∀ {l : Str},
    (∀ c ∈ l, isWordChar c = false) → tokensW l = []
  | [], _ => tokensW_nil
  | c :: cs, h => by
    rw [tokensW_cons_nonword (h c (List.mem_cons_self _ _))]
    exact tokensW_eq_nil_of_all_nonword fun d hd => h d (List.mem_cons_of_mem _ hd)

/-- `takeWhile`/`dropWhile` for word characters ignore an all-nonword tail. -/
theorem word_split_append_nonword {v : Str} (hv : ∀ c ∈ v, isWordChar c = false) :
    ∀ u : Str, (u ++ v).takeWhile isWordChar = u.takeWhile isWordChar ∧
      (u ++ v).dropWhile isWordChar = u.dropWhile isWordChar ++ v
  | [] => by
    rcases v with _ | ⟨d, ds⟩
    · exact ⟨rfl, rfl⟩
    · refine ⟨?_, ?_⟩
      · rw [List.nil_append, List.takeWhile_cons_of_neg
          (by rw [hv d (List.mem_cons_self _ _)]; simp)]
        rfl
      · rw [List.nil_append, List.dropWhile_cons_of_neg
          (by rw [hv d (List.mem_cons_self _ _)]; simp)]
        rfl
  | c :: cs => by
    by_cases hc : isWordChar c = true
    · rw [List.cons_append, List.takeWhile_cons_of_pos hc,
        List.takeWhile_cons_of_pos hc, List.dropWhile_cons_of_pos hc,
        List.dropWhile_cons_of_pos hc, (word_split_append_nonword hv cs).1,
        (word_split_append_nonword hv cs).2]
      exact ⟨rfl, rfl⟩
    · rw [List.cons_append, List.takeWhile_cons_of_neg hc,
        List.takeWhile_cons_of_neg hc, List.dropWhile_cons_of_neg hc,
        List.dropWhile_cons_of_neg hc, List.cons_append]
      exact ⟨rfl, rfl⟩

/-- Word tokens ignore an all-nonword suffix. -/
theorem tokensW_append_nonword {v : Str} (hv : ∀ c ∈ v, isWordChar c = false) :
    ∀ u : Str, tokensW (u ++ v) = tokensW u
  | [] => by rw [List.nil_append, tokensW_eq_nil_of_all_nonword hv, tokensW_nil]
  | c :: cs => by
    by_cases hc : isWordChar c = true
    · rw [List.cons_append, tokensW_cons_word hc, tokensW_cons_word hc,
        (word_split_append_nonword hv cs).1, (word_split_append_nonword hv cs).2]
      rw [tokensW_append_nonword hv (cs.dropWhile isWordChar)]
    · rw [List.cons_append, tokensW_cons_nonword (by simpa using hc),
        tokensW_cons_nonword (by simpa using hc)]
      exact tokensW_append_nonword hv cs
termination_by u => u.length
decreasing_by
  · simp only [List.length_cons]
    exact Nat.lt_succ_of_le (List.Sublist.length_le (List.dropWhile_sublist _))
  · simp

/-- `strip()` does not change the word tokens. -/
theorem tokensW_stripStr (q : Str) : tokensW (stripStr q) = tokensW q := by
  unfold stripStr
  have hdecomp : dropTrailingWS (q.dropWhile isSpaceChar) ++
      ((q.dropWhile isSpaceChar).reverse.takeWhile isSpaceChar).reverse =
      q.dropWhile isSpaceChar := by
    unfold dropTrailingWS
    rw [← List.reverse_append, List.takeWhile_append_dropWhile, List.reverse_reverse]
  have hv : ∀ c ∈ ((q.dropWhile isSpaceChar).reverse.takeWhile isSpaceChar).reverse,
      isWordChar c = false := by
    intro c hc
    rw [List.mem_reverse] at hc
    exact not_word_of_space (List.mem_takeWhile_imp hc)
  calc tokensW (dropTrailingWS (q.dropWhile isSpaceChar))
      = tokensW (dropTrailingWS (q.dropWhile isSpaceChar) ++
          ((q.dropWhile isSpaceChar).reverse.takeWhile isSpaceChar).reverse) :=
        (tokensW_append_nonword hv _).symm
    _ = tokensW (q.dropWhile isSpaceChar) := by rw [hdecomp]
    _ = tokensW q := tokensW_dropWhileSpace q

/-- The collapsing scan commutes with splitting off the leading word run. -/
theorem collapseAux_word_split : ∀ l : Str,
    (collapseAux false l).takeWhile isWordChar = l.takeWhile isWordChar ∧
      (collapseAux false l).dropWhile isWordChar =
        collapseAux false (l.dropWhile isWordChar)
  | [] => ⟨rfl, rfl⟩
  | c :: cs => by
    by_cases hw : isWordChar c = true
    · rw [collapseAux_cons_nonspace (not_space_of_word hw)]
      rw [List.takeWhile_cons_of_pos hw, List.takeWhile_cons_of_pos hw,
        List.dropWhile_cons_of_pos hw, List.dropWhile_cons_of_pos hw,
        (collapseAux_word_split cs).1, (collapseAux_word_split cs).2]
      exact ⟨rfl, rfl⟩
    · by_cases hsp : isSpaceChar c = true
      · rw [collapseAux_cons_space_false hsp]
        rw [List.takeWhile_cons_of_neg (by rw [space_char_facts.2.1]; simp),
          List.takeWhile_cons_of_neg hw,
          List.dropWhile_cons_of_neg (by rw [space_char_facts.2.1]; simp),
          List.dropWhile_cons_of_neg hw,
          collapseAux_cons_space_false hsp]
        exact ⟨rfl, rfl⟩
      · rw [collapseAux_cons_nonspace (by simpa using hsp)]
        rw [List.takeWhile_cons_of_neg hw,
          List.takeWhile_cons_of_neg hw,
          List.dropWhile_cons_of_neg hw,
          List.dropWhile_cons_of_neg hw,
          collapseAux_cons_nonspace (by simpa using hsp)]
        exact ⟨rfl, rfl⟩

/-- The flag-up scan equals the flag-down scan after dropping leading
whitespace. -/
theorem collapseAux_true_eq : ∀ l : Str,
    collapseAux true l = collapseAux false (l.dropWhile isSpaceChar)
  | [] => rfl
  | c :: cs => by
    by_cases hsp : isSpaceChar c = true
    · rw [collapseAux_cons_space_true hsp, List.dropWhile_cons_of_pos hsp]
      exact collapseAux_true_eq cs
    · rw [collapseAux_cons_nonspace (by simpa using hsp),
        List.dropWhile_cons_of_neg hsp,
        collapseAux_cons_nonspace (by simpa using hsp)]

/-- Collapsing whitespace does not change the word tokens. -/
theorem tokensW_collapseAux_false : ∀ s : Str,
    tokensW (collapseAux false s) = tokensW s
  | [] => rfl
  | c :: cs => by
    by_cases hw : isWordChar c = true
    · rw [collapseAux_cons_nonspace (not_space_of_word hw), tokensW_cons_word hw,
        tokensW_cons_word hw, (collapseAux_word_split cs).1,
        (collapseAux_word_split cs).2]
      rw [tokensW_collapseAux_false (cs.dropWhile isWordChar)]
    · by_cases hsp : isSpaceChar c = true
      · rw [collapseAux_cons_space_false hsp,
          tokensW_cons_nonword space_char_facts.2.1, collapseAux_true_eq cs,
          tokensW_cons_nonword (by simpa using hw)]
        rw [tokensW_collapseAux_false (cs.dropWhile isSpaceChar)]
        exact tokensW_dropWhileSpace cs
      · rw [collapseAux_cons_nonspace (by simpa using hsp),
          tokensW_cons_nonword (by simpa using hw),
          tokensW_cons_nonword (by simpa using hw)]
        rw [tokensW_collapseAux_false cs]
termination_by s => s.length
decreasing_by
  · simp only [List.length_cons]
    exact Nat.lt_succ_of_le (List.Sublist.length_le (List.dropWhile_sublist _))
  · simp only [List.length_cons]
    exact Nat.lt_succ_of_le (List.Sublist.length_le (List.dropWhile_sublist _))
  · simp

/-- Collapsing whitespace does not change the word tokens. -/
theorem tokensW_collapseWS (s : Str) : tokensW (collapseWS s) = tokensW s :=
  tokensW_collapseAux_false s

/-- The default is never used: a non-empty list's `getLastD` is a member. -/
theorem getLastD_mem : ∀ {w : Str}, w ≠ [] → ∀ d : Char, w.getLastD d ∈ w
  | [], h, _ => absurd rfl h
  | [a], _, d => by simp
  | a :: b :: t, _, d => by
    rw [List.getLastD_cons]
    exact List.mem_cons_of_mem _ (getLastD_mem (by simp) a)

/-- Unfolding the scan at a match. -/
theorem rmAux_zero_cons_match {w : Str} {c : Char} {cs : Str} (hne : w ≠ [])
    (htake : (c :: cs).take w.length = w)
    (hb : boundaryAfter ((c :: cs).drop w.length) = true) :
    rmAux w 0 false (c :: cs) =
      rmAux w (w.length - 1) (isWordChar (w.getLastD ' ')) cs := by
  conv_lhs => unfold rmAux
  rw [if_pos ⟨hne, rfl, htake, hb⟩]

/-- Unfolding the scan when the match condition fails. -/
theorem rmAux_zero_cons_nomatch {w : Str} {c : Char} {cs : Str} {b : Bool}
    (h : ¬(w ≠ [] ∧ b = false ∧ (c :: cs).take w.length = w ∧
      boundaryAfter ((c :: cs).drop w.length) = true)) :
    rmAux w 0 b (c :: cs) = c :: rmAux w 0 (isWordChar c) cs := by
  conv_lhs => unfold rmAux
  rw [if_neg h]

/-- A whole-word pattern of word characters cannot match at a non-word head,
so the scan copies the character. -/
theorem rmAux_cons_nonword_head {w : Str} (hw : ∀ c' ∈ w, isWordChar c' = true)
    {c : Char} (hc : isWordChar c = false) (b : Bool) (cs : Str) :
    rmAux w 0 b (c :: cs) = c :: rmAux w 0 false cs := by
  rw [rmAux_zero_cons_nomatch, hc]
  rintro ⟨hne, _, htake, _⟩
  rcases w with _ | ⟨w0, w'⟩
  · exact hne rfl
  · rw [List.length_cons, List.take_succ_cons, List.cons.injEq] at htake
    rw [htake.1] at hc
    rw [hw w0 (List.mem_cons_self _ _)] at hc
    exact (by simp at hc : False)

/-- Skipping `k + 1` characters then rescanning equals rescanning after
dropping them. -/
theorem rmAux_skip {w : Str} : ∀ (s : Str) (k : ℕ) (b : Bool),
    rmAux w (k + 1) b s = rmAux w 0 (isWordChar (w.getLastD ' ')) (s.drop (k + 1))
  | [], k, b => by rw [List.drop_nil]; rfl
  | c :: cs, 0, b => rfl
  | c :: cs, k + 1, b => by
    show rmAux w (k + 1) (isWordChar (w.getLastD ' ')) cs = _
    rw [rmAux_skip cs k _]
    rfl

/-- With the previous character a word character, the scan copies the whole
leading word run verbatim. -/
theorem rmAux_true_run {w : Str} (hw : ∀ c' ∈ w, isWordChar c' = true) :
    ∀ s : Str, rmAux w 0 true s =
      s.takeWhile isWordChar ++ rmAux w 0 true (s.dropWhile isWordChar)
  | [] => rfl
  | c :: cs => by
    by_cases hc : isWordChar c = true
    · rw [rmAux_zero_cons_nomatch (fun h => by simpa using h.2.1), hc,
        rmAux_true_run hw cs, List.takeWhile_cons_of_pos hc,
        List.dropWhile_cons_of_pos hc, List.cons_append]
    · rw [List.takeWhile_cons_of_neg hc, List.dropWhile_cons_of_neg hc,
        List.nil_append]

/-- At a right `\b` boundary the previous-character flag is irrelevant. -/
theorem rmAux_true_eq_false_of_boundary {w : Str}
    (hw : ∀ c' ∈ w, isWordChar c' = true) {s : Str}
    (hb : boundaryAfter s = true) : rmAux w 0 true s = rmAux w 0 false s := by
  rcases s with _ | ⟨d, ds⟩
  · rfl
  · have hd : isWordChar d = false := by simpa [boundaryAfter] using hb
    rw [rmAux_cons_nonword_head hw hd, rmAux_cons_nonword_head hw hd]

/-- After dropping the leading word run, the scan stands at a boundary. -/
theorem boundaryAfter_dropWhile_word : ∀ l : Str,
    boundaryAfter (l.dropWhile isWordChar) = true
  | [] => rfl
  | c :: cs => by
    by_cases hc : isWordChar c = true
    · rw [List.dropWhile_cons_of_pos hc]
      exact boundaryAfter_dropWhile_word cs
    · rw [List.dropWhile_cons_of_neg hc]
      simpa [boundaryAfter] using hc

/-- Splitting an all-word run followed by a boundary. -/
theorem word_run_split {v : Str} (hb : boundaryAfter v = true) :
    ∀ {u : Str}, (∀ c ∈ u, isWordChar c = true) →
      (u ++ v).takeWhile isWordChar = u ∧ (u ++ v).dropWhile isWordChar = v
  | [], _ => by
    rcases v with _ | ⟨d, ds⟩
    · exact ⟨rfl, rfl⟩
    · have hd : isWordChar d = false := by simpa [boundaryAfter] using hb
      rw [List.nil_append]
      exact ⟨List.takeWhile_cons_of_neg (by rw [hd]; simp),
        List.dropWhile_cons_of_neg (by rw [hd]; simp)⟩
  | c :: cs, hu => by
    have hc : isWordChar c = true := hu c (List.mem_cons_self _ _)
    rw [List.cons_append, List.takeWhile_cons_of_pos hc,
      List.dropWhile_cons_of_pos hc,
      (word_run_split hb fun d hd => hu d (List.mem_cons_of_mem _ hd)).1,
      (word_run_split hb fun d hd => hu d (List.mem_cons_of_mem _ hd)).2]
    exact ⟨rfl, rfl⟩

/-- A `\b w \b` match at the head of a word-headed string is exactly its
leading word run. -/
theorem match_is_run {w : Str} (hw : ∀ c' ∈ w, isWordChar c' = true)
    {c : Char} {cs : Str} (htake : (c :: cs).take w.length = w)
    (hb : boundaryAfter ((c :: cs).drop w.length) = true) :
    (c :: cs).takeWhile isWordChar = w ∧
      (c :: cs).dropWhile isWordChar = (c :: cs).drop w.length := by
  have hsplit := List.take_append_drop w.length (c :: cs)
  rw [htake] at hsplit
  have h2 := word_run_split hb hw
  rw [hsplit] at h2
  exact h2

/-- Tokens of a word run followed by a boundary. -/
theorem tokensW_run_append {run X : Str} (hne : run ≠ [])
    (hr : ∀ c ∈ run, isWordChar c = true) (hb : boundaryAfter X = true) :
    tokensW (run ++ X) = run :: tokensW X := by
  rcases run with _ | ⟨r0, rs⟩
  · exact absurd rfl hne
  · rw [List.cons_append, tokensW_eq_of_head_word (hr r0 (List.mem_cons_self _ _)),
      ← List.cons_append, (word_run_split hb hr).1, (word_run_split hb hr).2]

/-- If the leading word run of a word-headed string equals `w`, the `\b w \b`
match condition holds there. -/
theorem run_match_cond {w : Str} {c : Char} {cs : Str}
    (heq : (c :: cs).takeWhile isWordChar = w) :
    (c :: cs).take w.length = w ∧
      boundaryAfter ((c :: cs).drop w.length) = true := by
  have hpre : w <+: (c :: cs) := heq ▸ List.takeWhile_prefix _
  have hdrop : (c :: cs).drop w.length = (c :: cs).dropWhile isWordChar := by
    have hsplit : w ++ (c :: cs).dropWhile isWordChar = c :: cs := by
      rw [← heq, List.takeWhile_append_dropWhile]
    conv_lhs => rw [← hsplit]
    rw [List.drop_left]
  refine ⟨(List.prefix_iff_eq_take.mp hpre).symm, ?_⟩
  rw [hdrop]
  exact boundaryAfter_dropWhile_word _

/-- `rmAux` output at a boundary still stands at a boundary. -/
theorem boundaryAfter_rmAux {w : Str} (hw : ∀ c' ∈ w, isWordChar c' = true)
    {rest : Str} (hb : boundaryAfter rest = true) :
    boundaryAfter (rmAux w 0 false rest) = true := by
  rcases rest with _ | ⟨d, ds⟩
  · rfl
  · have hd : isWordChar d = false := by simpa [boundaryAfter] using hb
    rw [rmAux_cons_nonword_head hw hd]
    simpa [boundaryAfter] using hd

/-- `re.sub(r'\b w \b', '', s)` removes exactly the word tokens equal to `w`:
the tokens of the result are the tokens of `s` with `w` filtered out. -/
theorem tokensW_rmAux_filter {w : Str} (hne : w ≠ [])
    (hw : ∀ c' ∈ w, isWordChar c' = true) :
    ∀ s : Str, tokensW (rmAux w 0 false s) = (tokensW s).filter (fun t => t ≠ w)
  | [] => by
    rw [show rmAux w 0 false [] = [] from rfl, tokensW_nil]
    rfl
  | c :: cs => by
    have hL : isWordChar (w.getLastD ' ') = true := hw _ (getLastD_mem hne ' ')
    by_cases hc : isWordChar c = true
    · by_cases hcond : (c :: cs).take w.length = w ∧
        boundaryAfter ((c :: cs).drop w.length) = true
      · obtain ⟨htake, hb⟩ := hcond
        obtain ⟨n, hn⟩ : ∃ n, w.length = n + 1 := by
          rcases w with _ | ⟨a, as⟩
          · exact absurd rfl hne
          · exact ⟨as.length, rfl⟩
        have hstep : rmAux w (w.length - 1) (isWordChar (w.getLastD ' ')) cs =
            rmAux w 0 (isWordChar (w.getLastD ' ')) ((c :: cs).drop w.length) := by
          rw [hn]
          simp only [Nat.add_sub_cancel, List.drop_succ_cons]
          rcases n with _ | n'
          · rw [List.drop_zero]
          · rw [rmAux_skip cs n' _]
        rw [rmAux_zero_cons_match hne htake hb, hstep, hL,
          rmAux_true_eq_false_of_boundary hw hb,
          tokensW_rmAux_filter hne hw ((c :: cs).drop w.length),
          tokensW_eq_of_head_word hc, (match_is_run hw htake hb).1,
          (match_is_run hw htake hb).2, List.filter_cons]
        simp
      · have hXb : boundaryAfter (rmAux w 0 false (cs.dropWhile isWordChar)) = true :=
          boundaryAfter_rmAux hw (boundaryAfter_dropWhile_word cs)
        have hrun_w : ∀ d ∈ (c :: cs.takeWhile isWordChar), isWordChar d = true := by
          intro d hd
          rcases List.mem_cons.mp hd with rfl | hd'
          · exact hc
          · exact List.mem_takeWhile_imp hd'
        have hrun_ne_w : (c :: cs.takeWhile isWordChar) ≠ w := by
          intro heq
          exact hcond (run_match_cond (by rwa [List.takeWhile_cons_of_pos hc]))
        rw [rmAux_zero_cons_nomatch (fun h => hcond ⟨h.2.2.1, h.2.2.2⟩), hc,
          rmAux_true_run hw cs,
          rmAux_true_eq_false_of_boundary hw (boundaryAfter_dropWhile_word cs),
          ← List.cons_append,
          tokensW_run_append (by simp) hrun_w hXb,
          tokensW_rmAux_filter hne hw (cs.dropWhile isWordChar),
          tokensW_cons_word hc, List.filter_cons, if_pos (by simpa using hrun_ne_w)]
    · rw [rmAux_cons_nonword_head hw (by simpa using hc),
        tokensW_cons_nonword (by simpa using hc),
        tokensW_cons_nonword (by simpa using hc)]
      exact tokensW_rmAux_filter hne hw cs
termination_by s => s.length
decreasing_by
  · simp only [List.length_drop, List.length_cons]
    omega
  · simp only [List.length_cons]
    exact Nat.lt_succ_of_le (List.Sublist.length_le (List.dropWhile_sublist _))
  · simp

/-- When no whole word of `s` equals `w`, `re.sub(r'\b w \b', '', s)` leaves
`s` unchanged. -/
theorem rmAux_eq_self_of_not_mem {w : Str} (hne : w ≠ [])
    (hw : ∀ c' ∈ w, isWordChar c' = true) :
    ∀ s : Str, w ∉ tokensW s → rmAux w 0 false s = s
  | [], _ => rfl
  | c :: cs, hmem => by
    by_cases hc : isWordChar c = true
    · by_cases hcond : (c :: cs).take w.length = w ∧
        boundaryAfter ((c :: cs).drop w.length) = true
      · exfalso
        apply hmem
        rw [tokensW_eq_of_head_word hc, (match_is_run hw hcond.1 hcond.2).1]
        exact List.mem_cons_self _ _
      · have hnm : w ∉ tokensW (cs.dropWhile isWordChar) := by
          intro hmem2
          apply hmem
          rw [tokensW_eq_of_head_word hc, List.dropWhile_cons_of_pos hc]
          exact List.mem_cons_of_mem _ hmem2
        rw [rmAux_zero_cons_nomatch (fun h => hcond ⟨h.2.2.1, h.2.2.2⟩), hc,
          rmAux_true_run hw cs,
          rmAux_true_eq_false_of_boundary hw (boundaryAfter_dropWhile_word cs),
          rmAux_eq_self_of_not_mem hne hw (cs.dropWhile isWordChar) hnm,
          List.takeWhile_append_dropWhile]
    · have hnm : w ∉ tokensW cs := by
        rwa [tokensW_cons_nonword (by simpa using hc)] at hmem
      rw [rmAux_cons_nonword_head hw (by simpa using hc),
        rmAux_eq_self_of_not_mem hne hw cs hnm]
termination_by s => s.length
decreasing_by
  · simp only [List.length_cons]
    exact Nat.lt_succ_of_le (List.Sublist.length_le (List.dropWhile_sublist _))
  · simp

/-- Every stop word is a non-empty run of word characters. -/
theorem stopWords_wf : ∀ w ∈ stopWords, w ≠ [] ∧ ∀ c ∈ w, isWordChar c = true := by
  decide

/-- The stop-word removal loop filters the token list word by word. -/
theorem tokensW_foldl_removeStop :
    ∀ ws : List Str, (∀ w ∈ ws, w ≠ [] ∧ ∀ c ∈ w, isWordChar c = true) →
      ∀ s : Str, tokensW (ws.foldl removeStop s) =
        ws.foldl (fun ts t => ts.filter fun u => u ≠ t) (tokensW s)
  | [], _, s => rfl
  | w :: ws, hwf, s => by
    rw [List.foldl_cons, List.foldl_cons,
      tokensW_foldl_removeStop ws (fun u hu => hwf u (List.mem_cons_of_mem _ hu)),
      show removeStop s w = rmAux w 0 false s from rfl,
      tokensW_rmAux_filter (hwf w (List.mem_cons_self _ _)).1
        (hwf w (List.mem_cons_self _ _)).2]

/-- Filtering out `w` removes every occurrence of `w`. -/
theorem not_mem_filter_ne (w : Str) (l : List Str) :
    w ∉ l.filter fun u => u ≠ w := by
  intro h
  have := (List.mem_filter.mp h).2
  simp at this

/-- Members of the filter chain come from the initial list. -/
theorem mem_foldl_filter :
    ∀ (ws : List Str) (ts : List Str) (t : Str),
      t ∈ ws.foldl (fun ts' t' => ts'.filter fun u => u ≠ t') ts → t ∈ ts
  | [], _, _, h => h
  | w :: ws, ts, t, h =>
    (List.mem_filter.mp (mem_foldl_filter ws _ t h)).1

/-- No stop word of the chain survives the filter chain. -/
theorem not_mem_foldl_filter :
    ∀ (ws : List Str) (ts : List Str) (w : Str), w ∈ ws →
      w ∉ ws.foldl (fun ts' t' => ts'.filter fun u => u ≠ t') ts
  | [], _, _, hmem, _ => by simp at hmem
  | w' :: ws, ts, w, hmem, h => by
    rcases List.mem_cons.mp hmem with rfl | hmem'
    · rw [List.foldl_cons] at h
      exact not_mem_filter_ne w ts (mem_foldl_filter ws _ w h)
    · exact not_mem_foldl_filter ws _ w hmem' (by rwa [List.foldl_cons] at h)

/-- The tokens of a normalized name are the tokens of its collapsed
pre-stop-word stage with every stop word filtered out. -/
theorem tokensW_standardizeName (x : Str) :
    tokensW (standardizeName x) =
      stopWords.foldl (fun ts t => ts.filter fun u => u ≠ t)
        (tokensW (collapseWS (depunct (lowerStr x)))) := by
  rw [standardizeName, tokensW_stripStr, removeStops]
  exact tokensW_foldl_removeStop stopWords stopWords_wf _

/-- No stop word occurs as a whole word of a normalized name. -/
theorem stopword_not_mem_tokensW_standardizeName (x : Str) {w : Str}
    (hw : w ∈ stopWords) : w ∉ tokensW (standardizeName x) := by
  rw [tokensW_standardizeName]
  exact not_mem_foldl_filter stopWords _ w hw

/-- Stop-word removal fixes a string none of whose word tokens is in the
list. -/
theorem foldl_removeStop_fix :
    ∀ ws : List Str, (∀ w ∈ ws, w ≠ [] ∧ ∀ c ∈ w, isWordChar c = true) →
      ∀ t : Str, (∀ w ∈ ws, w ∉ tokensW t) → ws.foldl removeStop t = t
  | [], _, t, _ => rfl
  | w :: ws, hwf, t, hnm => by
    rw [List.foldl_cons,
      show removeStop t w = rmAux w 0 false t from rfl,
      rmAux_eq_self_of_not_mem (hwf w (List.mem_cons_self _ _)).1
        (hwf w (List.mem_cons_self _ _)).2 t (hnm w (List.mem_cons_self _ _))]
    exact foldl_removeStop_fix ws (fun u hu => hwf u (List.mem_cons_of_mem _ hu)) t
      (fun u hu => hnm u (List.mem_cons_of_mem _ hu))

/-- Stop-word removal fixes the collapse of a normalized name. -/
theorem removeStops_collapseWS_standardizeName (x : Str) :
    removeStops (collapseWS (standardizeName x)) = collapseWS (standardizeName x) := by
  rw [removeStops]
  refine foldl_removeStop_fix stopWords stopWords_wf _ fun w hw => ?_
  rw [tokensW_collapseWS]
  exact stopword_not_mem_tokensW_standardizeName x hw

/-- The second normalization pass only collapses the whitespace runs that
stop-word removal left behind. -/
theorem standardizeName_standardizeName (x : Str) :
    standardizeName (standardizeName x) = collapseWS (standardizeName x) := by
  rw [show standardizeName (standardizeName x) =
        stripStr (removeStops (collapseWS (depunct (lowerStr (standardizeName x)))))
      from rfl,
    lowerStr_standardizeName, depunct_standardizeName,
    removeStops_collapseWS_standardizeName, stripStr_collapseWS_standardizeName]

/-- C2: false as claimed — the normalization pipeline is not idempotent.
Removing the whole word "de" from the collapsed "nettoyage de vitres"
leaves both surrounding spaces, so one pass yields "nettoyage  vitres"
(double space) while a second pass collapses it to "nettoyage vitres". -/
theorem c2_not_idempotent_counterexample :
    standardizeName (standardizeName "nettoyage de vitres".data) ≠
      standardizeName "nettoyage de vitres".data ∧
    standardizeName "nettoyage de vitres".data = "nettoyage  vitres".data ∧
    standardizeName (standardizeName "nettoyage de vitres".data) =
      "nettoyage vitres".data := by
  decide

/-- C2 amended: one pass may leave collapsible whitespace runs created by
whole-word stop-word removal, and that is the only failure of idempotence:
a second pass exactly collapses those runs
(`normalize² = collapseWS ∘ normalize`), and the pipeline is idempotent
from the second pass on (`normalize³ = normalize²`). -/
theorem c2_idempotent_after_second_pass (name : Str) :
    standardizeName (standardizeName name) = collapseWS (standardizeName name) ∧
    standardizeName (standardizeName (standardizeName name)) =
      standardizeName (standardizeName name) := by
  refine ⟨standardizeName_standardizeName name, ?_⟩
  calc standardizeName (standardizeName (standardizeName name))
      = collapseWS (standardizeName (standardizeName name)) :=
        standardizeName_standardizeName (standardizeName name)
    _ = collapseWS (collapseWS (standardizeName name)) := by
        rw [standardizeName_standardizeName name]
    _ = collapseWS (standardizeName name) := collapseWS_idem _
    _ = standardizeName (standardizeName name) :=
        (standardizeName_standardizeName name).symm
